import Mathlib

/-!
Verification development for the lexer of the bead language
(src/parser/lexer.rs, src/parser/token.rs, src/parser/errors.rs).

The lexer is embedded shallowly: the mutable Lexer struct becomes an
explicit state record, each Rust method becomes a state-passing function,
and the inline while loops become recursive functions terminating on the
number of unread characters.  A Rust Result of Token or LexerError becomes
`TokenResult`; a reachable `Option::unwrap()` panic is modelled by the
outer `Option` being `none`.  Token variants follow the names the lexer
itself constructs.  The keyword table, operator list and delimiter list are
immutable after construction in the source, so they are modelled as global
constants rather than record fields.
-/

namespace BeadLex

/-- LexerError from errors.rs: a single diagnostic message. -/
structure LexerError where
  message : String
deriving DecidableEq, Repr

set_option maxHeartbeats 1600000 in
/-- Token from token.rs, restricted to the variants the lexer constructs.
The arbitrary-precision BigInt payload is an unbounded Int; the f64 payload
is represented by the literal text it was parsed from (see f64_from_str);
the Vec of u8 payload is a list of byte values. -/
inductive Token where
  | If
  | Elif
  | Else
  | For
  | While
  | Class
  | Function
  | Private
  | Public
  | NewInstance
  | SelfInstance
  | DelObject
  | Constructor
  | Destructor
  | Super
  | Return
  | BoolValue (value : Bool)
  | NullValue
  | IntType
  | FloatType
  | StringType
  | CharType
  | BoolType
  | BytesType
  | TupleType
  | EnumType
  | ListType
  | DictType
  | IntValue (value : Int)
  | FloatValue (value : String)
  | StringValue (value : String)
  | CharValue (value : Char)
  | BytesValue (value : List Nat)
  | Symbol (name : String)
  | Add
  | Subtract
  | Multiply
  | Divide
  | Modulo
  | Not
  | NotEquals
  | Assignment
  | Equals
  | LogicalOr
  | LogicalAnd
  | BitwiseOr
  | BitwiseAnd
  | BitwiseNot
  | BitwiseXor
  | BitwiseRightShift
  | BitwiseLeftShift
  | Greater
  | GreaterEqual
  | Less
  | LessEqual
  | LeftParens
  | RightParens
  | LeftCurlyBracket
  | RightCurlyBracket
  | LeftSquareBracket
  | RightSquareBracket
  | Semicolon
  | Comma
  | MemberAccessor
  | FnReturnTypeDelim
  | StaticAccessor
deriving Repr

/-- Result of one next_token call: Rust Result of Token and LexerError. -/
inductive TokenResult where
  | ok (t : Token)
  | err (e : LexerError)
deriving Repr

/-- get_identifiers_map from lexer.rs, in source insertion order. -/
def get_identifiers_map : List (String × Token) :=
  [ ("if", .If),
    ("elif", .Elif),
    ("else", .Else),
    ("for", .For),
    ("while", .While),
    ("class", .Class),
    ("fn", .Function),
    ("priv", .Private),
    ("pub", .Public),
    ("new", .NewInstance),
    ("self", .SelfInstance),
    ("del", .DelObject),
    ("construct", .Constructor),
    ("destruct", .Destructor),
    ("super", .Super),
    ("return", .Return),
    ("true", .BoolValue true),
    ("false", .BoolValue false),
    ("null", .NullValue),
    ("int", .IntType),
    ("float", .FloatType),
    ("str", .StringType),
    ("char", .CharType),
    ("bool", .BoolType),
    ("bytes", .BytesType),
    ("tuple", .TupleType),
    ("enum", .EnumType),
    ("list", .ListType),
    ("dict", .DictType) ]

/-- HashMap contains_key followed by get and clone, modelled as a list
lookup (the map literal has pairwise distinct keys, so lookup order is
immaterial). -/
def identifiers_lookup (s : String) : Option Token :=
  (get_identifiers_map.find? (fun p => p.1 == s)).map (fun p => p.2)

/-- get_operators from lexer.rs. -/
def get_operators : List Char :=
  ['+', '-', '*', '/', '%', '!', '=', '|', '&', '^', '<', '>', '~']

/-- get_delimiters from lexer.rs. -/
def get_delimiters : List Char :=
  ['{', '}', '[', ']', '(', ')', ',', ';', ':', '.']

/-- Mutable state of the Rust Lexer: the unread tail of the character
iterator, the current and previous characters, the position counters and
the processed flag.  The three immutable tables are global constants. -/
structure Lexer where
  input : List Char
  current_chr : Option Char
  previous_chr : Option Char
  row : Nat
  column : Nat
  current_char_processed : Bool
deriving DecidableEq, Repr

/-- Lexer constructor (Lexer::new). -/
def Lexer.new (input : List Char) : Lexer :=
  { input := input
    current_chr := none
    previous_chr := none
    row := 0
    column := 0
    current_char_processed := true }

/-- next_char: shift current into previous, pull the next character, and
bump the column when a character was obtained. -/
def next_char (l : Lexer) : Lexer :=
  { l with
    previous_chr := l.current_chr
    current_chr := l.input.head?
    input := l.input.tail
    column := if l.input.head?.isSome then l.column + 1 else l.column }

/-- Rust char::is_whitespace: the Unicode White_Space property. -/
def rust_is_whitespace (c : Char) : Bool :=
  let n := c.toNat
  (0x09 ≤ n && n ≤ 0x0D) || n == 0x20 || n == 0x85 || n == 0xA0 ||
  n == 0x1680 || (0x2000 ≤ n && n ≤ 0x200A) || n == 0x2028 || n == 0x2029 ||
  n == 0x202F || n == 0x205F || n == 0x3000

/-- is_newline: a line feed counts as a newline; a carriage return counts
only when the peeked character is a line feed, in which case the line feed
is consumed as part of the same logical newline.  The returned state
carries that side effect. -/
def is_newline (l : Lexer) : Bool × Lexer :=
  match l.current_chr with
  | some '\n' => (true, l)
  | some '\r' =>
      match l.input.head? with
      | some '\n' => (true, next_char l)
      | _ => (false, l)
  | _ => (false, l)

/-- Termination measure: unread characters, counting the loaded current
character. -/
def msr (l : Lexer) : Nat :=
  l.input.length + (if l.current_chr.isSome then 1 else 0)

/-- Loop body of skip_redundant_characters: re-evaluate is_newline (with
its side effect) and either count a newline (row up, column zeroed) or a
plain whitespace character (column up). -/
def skip_body (l : Lexer) : Lexer :=
  let p := is_newline l
  if p.1 then { p.2 with row := p.2.row + 1, column := 0 }
  else { p.2 with column := p.2.column + 1 }

/-- skip_redundant_characters: consume whitespace and newlines, updating
row and column.  The Rust while condition short-circuits: is_newline is
evaluated in the condition only when is_whitespace is false, and evaluated
again (with its side effect) in the loop body. -/
def skip_redundant_characters (l : Lexer) : Lexer :=
  match hc : l.current_chr with
  | none => l
  | some c =>
      if hw : rust_is_whitespace c then
        skip_redundant_characters (next_char (skip_body l))
      else
        if hq : (is_newline l).1 then
          skip_redundant_characters (next_char (skip_body (is_newline l).2))
        else (is_newline l).2
termination_by msr l
decreasing_by
all_goals
  have hnc : ∀ (m : Lexer) (d : Char), m.current_chr = some d →
      msr (next_char m) < msr m := by
    intro m d hd
    cases hi : m.input with
    | nil => simp [msr, next_char, hd, hi]
    | cons a t => simp [msr, next_char, hd, hi]
  have hnl : ∀ (m : Lexer) (d : Char), m.current_chr = some d →
      (∃ e, (is_newline m).2.current_chr = some e) ∧
        msr (is_newline m).2 ≤ msr m := by
    intro m d hd
    by_cases h1 : d = '\n'
    · subst h1; simp [is_newline, hd]
    · by_cases h2 : d = '\r'
      · subst h2
        cases hi : m.input with
        | nil => simp [is_newline, hd, hi]
        | cons a t =>
            by_cases h3 : a = '\n'
            · subst h3
              constructor
              · exact ⟨'\n', by simp [is_newline, hd, hi, next_char]⟩
              · simp [is_newline, hd, hi]
                exact le_of_lt (hnc m '\r' hd)
            · simp [is_newline, hd, hi, h3]
      · constructor
        · exact ⟨d, by simp [is_newline, hd, h1, h2]⟩
        · simp [is_newline, hd, h1, h2]
  have hbody : ∀ (m : Lexer) (d : Char), m.current_chr = some d →
      msr (next_char (skip_body m)) < msr m := by
    intro m d hd
    obtain ⟨⟨e, he⟩, hle⟩ := hnl m d hd
    have hcur : (skip_body m).current_chr = some e := by
      unfold skip_body
      cases hb : (is_newline m).1 <;> simp [hb, he]
    have hm : msr (skip_body m) = msr (is_newline m).2 := by
      unfold skip_body
      cases hb : (is_newline m).1 <;> simp [hb, msr]
    calc msr (next_char (skip_body m)) < msr (skip_body m) := hnc _ e hcur
      _ ≤ msr m := by rw [hm]; exact hle
  first
  | exact hbody l c hc
  | (have hq1 : (is_newline l).2.current_chr = some '\n' ∧
        msr (is_newline l).2 ≤ msr l := by
      by_cases h1 : c = '\n'
      · subst h1; simp [is_newline, hc]
      · by_cases h2 : c = '\r'
        · subst h2
          cases hi : l.input with
          | nil => simp [is_newline, hc, hi] at hq
          | cons a t =>
              by_cases h3 : a = '\n'
              · subst h3
                constructor
                · simp [is_newline, hc, hi, next_char]
                · simp [is_newline, hc, hi]
                  exact le_of_lt (hnc l '\r' hc)
              · simp [is_newline, hc, hi, h3] at hq
        · simp [is_newline, hc, h1, h2] at hq
     exact lt_of_lt_of_le (hbody (is_newline l).2 '\n' hq1.1) hq1.2)

/-- Identifier loop of handle_identifier: consume the maximal run of ASCII
alphanumerics and underscores. -/
def ident_loop (l : Lexer) (acc : List Char) : List Char × Lexer :=
  match hc : l.current_chr with
  | some c =>
      if c.isAlphanum || c == '_' then ident_loop (next_char l) (acc ++ [c])
      else (acc, l)
  | none => (acc, l)
termination_by msr l
decreasing_by
  cases hi : l.input with
  | nil => simp [msr, next_char, hc, hi]
  | cons a t => simp [msr, next_char, hc, hi]

/-- Number loop of handle_number: consume the maximal run of ASCII digits
and dot separators. -/
def number_loop (l : Lexer) (acc : List Char) : List Char × Lexer :=
  match hc : l.current_chr with
  | some c =>
      if c.isDigit || c == '.' then number_loop (next_char l) (acc ++ [c])
      else (acc, l)
  | none => (acc, l)
termination_by msr l
decreasing_by
  cases hi : l.input with
  | nil => simp [msr, next_char, hc, hi]
  | cons a t => simp [msr, next_char, hc, hi]

/-- Quoted-literal loop of handle_string and of the byte-string branch of
handle_identifier: consume characters until a double quote. -/
def quoted_loop (l : Lexer) (acc : List Char) : List Char × Lexer :=
  match hc : l.current_chr with
  | some c =>
      if c == '"' then (acc, l)
      else quoted_loop (next_char l) (acc ++ [c])
  | none => (acc, l)
termination_by msr l
decreasing_by
  cases hi : l.input with
  | nil => simp [msr, next_char, hc, hi]
  | cons a t => simp [msr, next_char, hc, hi]

/-- UTF-8 encoding of one character, as Rust String::as_bytes exposes it. -/
def char_utf8 (c : Char) : List Nat :=
  let n := c.toNat
  if n < 0x80 then [n]
  else if n < 0x800 then
    [0xC0 + n / 0x40, 0x80 + n % 0x40]
  else if n < 0x10000 then
    [0xE0 + n / 0x1000, 0x80 + n / 0x40 % 0x40, 0x80 + n % 0x40]
  else
    [0xF0 + n / 0x40000, 0x80 + n / 0x1000 % 0x40, 0x80 + n / 0x40 % 0x40,
     0x80 + n % 0x40]

/-- Rust String::as_bytes().to_vec(): the UTF-8 bytes of the text. -/
def as_bytes (s : List Char) : List Nat :=
  s.foldr (fun c acc => char_utf8 c ++ acc) []

/-- Decimal value of a digit string. -/
def decimal_value (s : List Char) : Nat :=
  s.foldl (fun a c => a * 10 + (c.toNat - 48)) 0

/-- Modelled library function: num_bigint BigInt::from_str accepts an
optional sign followed by a nonempty run of decimal digits, with exact
arbitrary-precision value. -/
def bigint_from_str (s : List Char) : Option Int :=
  match s with
  | '+' :: rest =>
      if rest.length ≠ 0 && rest.all (fun c => c.isDigit) then
        some (decimal_value rest) else none
  | '-' :: rest =>
      if rest.length ≠ 0 && rest.all (fun c => c.isDigit) then
        some (-(decimal_value rest : Int)) else none
  | _ =>
      if s.length ≠ 0 && s.all (fun c => c.isDigit) then
        some (decimal_value s) else none

/-- Modelled library function: Rust str::parse::<f64> restricted to the
digit-and-dot strings handle_number can pass it, where it succeeds exactly
when the text contains a digit (and at most one dot).  IEEE-754 bit-level
semantics are outside the embedding; since Rust float parsing is a
deterministic (correctly rounded) function of the text, the parsed value
is represented by the text itself. -/
def f64_from_str (s : List Char) : Option String :=
  if s.any (fun c => c.isDigit) && s.all (fun c => c.isDigit || c == '.') &&
      s.count '.' ≤ 1 then
    some (String.mk s)
  else none

/-- handle_identifier, including the byte-string special case.  The
`previous_chr.unwrap()` in the source is guarded by the length check (the
run is nonempty whenever the length is 1), and the post-loop
`char_equals` of the byte-string branch unwraps the current character,
which panics when the input was exhausted: both unwraps are modelled by
`none`. -/
def handle_identifier (l : Lexer) : Option (TokenResult × Lexer) :=
  let r := ident_loop l []
  let identifier := r.1
  let l1 : Lexer := { r.2 with current_char_processed := false }
  match identifiers_lookup (String.mk identifier) with
  | some tok => some (.ok tok, l1)
  | none =>
      let bytes_guard : Option Bool :=
        if identifier.length = 1 then
          match l1.previous_chr with
          | none => none
          | some p =>
              some (p == 'b' &&
                (match l1.current_chr with
                 | some c => c == '"'
                 | none => false))
        else some false
      match bytes_guard with
      | none => none
      | some false => some (.ok (.Symbol (String.mk identifier)), l1)
      | some true =>
          let l2 : Lexer := { l1 with current_char_processed := true }
          let l3 := next_char l2
          let r2 := quoted_loop l3 []
          let l4 := r2.2
          match l4.current_chr with
          | none => none
          | some c =>
              if c == '"' then
                some (.ok (.BytesValue (as_bytes r2.1)),
                  { next_char l4 with current_char_processed := false })
              else
                some (.err { message := "Failed to parse bytes value: missing double-quotes" }, l4)

/-- handle_number: consume the numeric run, then classify by the number of
dot separators. -/
def handle_number (l : Lexer) : Option (TokenResult × Lexer) :=
  let r := number_loop l []
  let number := r.1
  let l1 : Lexer := { r.2 with current_char_processed := false }
  match number.count '.' with
  | 1 =>
      match f64_from_str number with
      | none => some (.err { message := "Could not parse float" }, l1)
      | some v => some (.ok (.FloatValue v), l1)
  | 0 =>
      match bigint_from_str number with
      | none => some (.err { message := "Could not parse int" }, l1)
      | some v => some (.ok (.IntValue v), l1)
  | _ => some (.err { message := "Invalid number - too many dot seperators" }, l1)

/-- handle_string: consume past the opening quote, scan to the closing
quote.  The post-loop `char_equals` unwraps the current character and
panics when the input was exhausted (modelled by `none`); its error branch
is consequently unreachable. -/
def handle_string (l : Lexer) : Option (TokenResult × Lexer) :=
  let l1 := next_char l
  let r := quoted_loop l1 []
  let l2 := r.2
  match l2.current_chr with
  | none => none
  | some c =>
      if c == '"' then some (.ok (.StringValue (String.mk r.1)), l2)
      else some (.err { message := "Failed to parse string value: missing double-quotes" }, l2)

/-- handle_char: one payload character between single quotes. -/
def handle_char (l : Lexer) : Option (TokenResult × Lexer) :=
  let l1 := next_char l
  match l1.current_chr with
  | none => some (.err { message := "Failed to parse character value" }, l1)
  | some c =>
      if c == '\'' then
        some (.err { message := "Character literal may only contain one codepoint" }, l1)
      else
        let l2 := next_char l1
        if l2.current_chr == some '\'' then some (.ok (.CharValue c), l2)
        else
          some (.err { message := "Failed to parse character value: missing single-quotes" }, l2)

/-- handle_operator: one-character operators with one-character lookahead
for the compound forms.  The initial unwrap of the current character is
modelled by `none` (unreachable from next_token). -/
def handle_operator (l : Lexer) : Option (TokenResult × Lexer) :=
  match l.current_chr with
  | none => none
  | some c =>
      match c with
      | '+' => some (.ok .Add, l)
      | '-' =>
          match l.input.head? with
          | some '>' => some (.ok .FnReturnTypeDelim, next_char l)
          | _ => some (.ok .Subtract, l)
      | '*' => some (.ok .Multiply, l)
      | '/' => some (.ok .Divide, l)
      | '%' => some (.ok .Modulo, l)
      | '!' =>
          match l.input.head? with
          | some '=' => some (.ok .NotEquals, next_char l)
          | _ => some (.ok .Not, l)
      | '=' =>
          match l.input.head? with
          | some '=' => some (.ok .Equals, next_char l)
          | _ => some (.ok .Assignment, l)
      | '|' =>
          match l.input.head? with
          | some '|' => some (.ok .LogicalOr, next_char l)
          | _ => some (.ok .BitwiseOr, l)
      | '&' =>
          match l.input.head? with
          | some '&' => some (.ok .LogicalAnd, next_char l)
          | _ => some (.ok .BitwiseAnd, l)
      | '~' => some (.ok .BitwiseNot, l)
      | '^' => some (.ok .BitwiseXor, l)
      | '>' =>
          match l.input.head? with
          | some '>' => some (.ok .BitwiseRightShift, next_char l)
          | some '=' => some (.ok .GreaterEqual, next_char l)
          | _ => some (.ok .Greater, l)
      | '<' =>
          match l.input.head? with
          | some '<' => some (.ok .BitwiseLeftShift, next_char l)
          | some '=' => some (.ok .LessEqual, next_char l)
          | _ => some (.ok .Less, l)
      | _ => some (.err { message := "Could not parse operator" }, l)

/-- handle_delimiter: one-character punctuation, with lookahead for the
double colon and the return arrow. -/
def handle_delimiter (l : Lexer) : Option (TokenResult × Lexer) :=
  match l.current_chr with
  | none => none
  | some c =>
      match c with
      | '(' => some (.ok .LeftParens, l)
      | ')' => some (.ok .RightParens, l)
      | '{' => some (.ok .LeftCurlyBracket, l)
      | '}' => some (.ok .RightCurlyBracket, l)
      | '[' => some (.ok .LeftSquareBracket, l)
      | ']' => some (.ok .RightSquareBracket, l)
      | ';' => some (.ok .Semicolon, l)
      | ',' => some (.ok .Comma, l)
      | '.' => some (.ok .MemberAccessor, l)
      | '-' =>
          match l.input.head? with
          | some '>' => some (.ok .FnReturnTypeDelim, next_char l)
          | _ => some (.err { message := "Could not parse delimiter" }, l)
      | ':' =>
          match l.input.head? with
          | some ':' => some (.ok .StaticAccessor, next_char l)
          | _ => some (.err { message := "Could not parse delimiter" }, l)
      | _ => some (.err { message := "Could not parse delimiter" }, l)

/-- Entry step of next_token: advance the cursor when the previous call
left its character processed, otherwise reuse it and clear the flag. -/
def advance_if_processed (l0 : Lexer) : Lexer :=
  if l0.current_char_processed then next_char l0
  else { l0 with current_char_processed := true }

/-- next_token: advance or reuse the current character, skip whitespace,
then dispatch on the current character.  The classification helpers of the
source (is_letter, is_digit, ...) unwrap the current character; they are
only called after the is_none early return, so the dispatch matches on the
present character directly. -/
def next_token (l0 : Lexer) : Option (TokenResult × Lexer) :=
  let l := skip_redundant_characters (advance_if_processed l0)
  match l.current_chr with
  | none => some (.err { message := "No more tokens" }, l)
  | some c =>
      if c.isAlpha || c == '_' then handle_identifier l
      else if c.isDigit then handle_number l
      else if c == '"' then handle_string l
      else if c == '\'' then handle_char l
      else if get_operators.contains c then handle_operator l
      else if get_delimiters.contains c then handle_delimiter l
      else some (.err { message := "Failed to lex source" }, l)

/-- Observable outcome of one next_token call. -/
inductive Outcome where
  | panicked
  | failure (msg : String)
  | token (t : Token)
deriving Repr

/-- Run next_token up to n times from a state, recording each outcome; a
panic stops the run. -/
def run (l : Lexer) : Nat → List Outcome
  | 0 => []
  | n + 1 =>
      match next_token l with
      | none => [.panicked]
      | some (.ok t, l') => .token t :: run l' n
      | some (.err e, l') => .failure e.message :: run l' n

/-- Run the lexer from scratch on a source string. -/
def lex_run (s : String) (n : Nat) : List Outcome :=
  run (Lexer.new s.data) n

/-- Discriminator: the outcome is the Err variant of the Rust Result, the
one lex_source and every caller treats as the error outcome. -/
def Outcome.isFailure : Outcome → Bool
  | .failure _ => true
  | _ => false

/-- Unread characters of a state: the loaded current character followed by
the unread tail of the iterator. -/
def chars (l : Lexer) : List Char :=
  l.current_chr.toList ++ l.input

/-- A state is loaded when an absent current character means the input is
really exhausted; every state reached after at least one next_char is
loaded. -/
def Loaded (l : Lexer) : Prop :=
  l.current_chr = none → l.input = []

/-- Iterated next_char. -/
def consumeN (l : Lexer) : Nat → Lexer
  | 0 => l
  | n + 1 => consumeN (next_char l) n

/-! Character-class facts used to drive the classifier. -/

lemma char_toNat_inj (c d : Char) (h : c.toNat = d.toNat) : c = d := by
  apply Char.ext
  apply UInt32.ext
  simpa [Char.toNat, UInt32.toNat] using h

lemma char_eq_iff (c d : Char) : c = d ↔ c.toNat = d.toNat :=
  ⟨fun h => h ▸ rfl, char_toNat_inj c d⟩

lemma isDigit_iff (c : Char) : c.isDigit = true ↔ 48 ≤ c.toNat ∧ c.toNat ≤ 57 := by
  simp only [Char.isDigit, UInt32.le_def, BitVec.le_def, Bool.and_eq_true,
    decide_eq_true_eq, Char.toNat]
  norm_num
  rfl

lemma isAlpha_iff (c : Char) : c.isAlpha = true ↔
    (65 ≤ c.toNat ∧ c.toNat ≤ 90) ∨ (97 ≤ c.toNat ∧ c.toNat ≤ 122) := by
  simp only [Char.isAlpha, Char.isUpper, Char.isLower, UInt32.le_def,
    BitVec.le_def, Bool.or_eq_true, Bool.and_eq_true, decide_eq_true_eq,
    Char.toNat]
  norm_num
  rfl

lemma isAlphanum_iff (c : Char) : c.isAlphanum = true ↔
    (65 ≤ c.toNat ∧ c.toNat ≤ 90) ∨ (97 ≤ c.toNat ∧ c.toNat ≤ 122) ∨
    (48 ≤ c.toNat ∧ c.toNat ≤ 57) := by
  simp only [Char.isAlphanum, Bool.or_eq_true, isAlpha_iff, isDigit_iff]
  tauto

lemma rust_ws_iff (c : Char) : rust_is_whitespace c = true ↔
    (9 ≤ c.toNat ∧ c.toNat ≤ 13) ∨ c.toNat = 32 ∨ c.toNat = 0x85 ∨
    c.toNat = 0xA0 ∨ c.toNat = 0x1680 ∨
    (0x2000 ≤ c.toNat ∧ c.toNat ≤ 0x200A) ∨ c.toNat = 0x2028 ∨
    c.toNat = 0x2029 ∨ c.toNat = 0x202F ∨ c.toNat = 0x205F ∨
    c.toNat = 0x3000 := by
  simp only [rust_is_whitespace, Bool.or_eq_true, Bool.and_eq_true,
    decide_eq_true_eq, beq_iff_eq]
  tauto

lemma not_ws_of_ident_char (c : Char) (h : c.isAlphanum = true ∨ c = '_') :
    rust_is_whitespace c = false := by
  rw [Bool.eq_false_iff, ne_eq, rust_ws_iff]
  rcases h with h | rfl
  · rw [isAlphanum_iff] at h
    omega
  · have h95 : ('_' : Char).toNat = 95 := rfl
    omega

lemma not_ws_of_num_char (c : Char) (h : c.isDigit = true ∨ c = '.') :
    rust_is_whitespace c = false := by
  rw [Bool.eq_false_iff, ne_eq, rust_ws_iff]
  rcases h with h | rfl
  · rw [isDigit_iff] at h
    omega
  · have h46 : ('.' : Char).toNat = 46 := rfl
    omega

lemma digit_not_ident_start (c : Char) (h : c.isDigit = true) :
    (c.isAlpha || c == '_') = false := by
  rw [isDigit_iff] at h
  rw [Bool.eq_false_iff]
  simp only [ne_eq, Bool.or_eq_true, not_or, isAlpha_iff, beq_iff_eq,
    char_eq_iff]
  have h95 : ('_' : Char).toNat = 95 := rfl
  omega

lemma alpha_is_alnum (c : Char) (h : c.isAlpha = true) : c.isAlphanum = true := by
  simp [Char.isAlphanum, h]

lemma alpha_not_num_char (c : Char) (h : c.isAlpha = true) :
    (c.isDigit || c == '.') = false := by
  rw [isAlpha_iff] at h
  rw [Bool.eq_false_iff]
  simp only [ne_eq, Bool.or_eq_true, not_or, isDigit_iff, beq_iff_eq,
    char_eq_iff]
  have h46 : ('.' : Char).toNat = 46 := rfl
  omega

lemma nonws_ne_newline (c : Char) (h : rust_is_whitespace c = false) :
    c ≠ '\n' ∧ c ≠ '\r' := by
  constructor <;> rintro rfl <;> simp [rust_is_whitespace] at h

/-! Basic facts about chars, Loaded, next_char, consumeN. -/

lemma chars_next_char (l : Lexer) : chars (next_char l) = l.input := by
  cases hi : l.input <;> simp [chars, next_char, hi]

lemma loaded_next_char (l : Lexer) : Loaded (next_char l) := by
  intro h
  simp only [next_char] at h ⊢
  cases hi : l.input with
  | nil => rfl
  | cons a t => simp [hi] at h

lemma cur_of_chars_cons (l : Lexer) (x : Char) (rest : List Char)
    (hld : Loaded l) (h : chars l = x :: rest) :
    l.current_chr = some x ∧ l.input = rest := by
  cases hc : l.current_chr with
  | none => simp [chars, hc, hld hc] at h
  | some c =>
    simp only [chars, hc, Option.toList_some, List.singleton_append,
      List.cons.injEq] at h
    exact ⟨by rw [h.1], h.2⟩

lemma cur_of_chars_nil (l : Lexer) (hld : Loaded l) (h : chars l = []) :
    l.current_chr = none ∧ l.input = [] := by
  cases hc : l.current_chr with
  | none => exact ⟨rfl, hld hc⟩
  | some c => simp [chars, hc] at h

lemma consumeN_chars (n : Nat) : ∀ (l : Lexer), Loaded l →
    chars (consumeN l n) = (chars l).drop n ∧ Loaded (consumeN l n) := by
  induction n with
  | zero => intro l hld; exact ⟨rfl, hld⟩
  | succ k ih =>
    intro l hld
    have step := ih (next_char l) (loaded_next_char l)
    rw [chars_next_char] at step
    refine ⟨?_, step.2⟩
    rw [show consumeN l (k + 1) = consumeN (next_char l) k from rfl, step.1]
    cases hc : l.current_chr with
    | none => simp [chars, hc, hld hc]
    | some c => simp [chars, hc]

lemma consumeN_row_flag (n : Nat) : ∀ (l : Lexer),
    (consumeN l n).row = l.row ∧
    (consumeN l n).current_char_processed = l.current_char_processed := by
  induction n with
  | zero => intro l; exact ⟨rfl, rfl⟩
  | succ k ih =>
    intro l
    have := ih (next_char l)
    simp only [next_char] at this
    exact this

lemma consumeN_prev (n : Nat) (hn : 1 ≤ n) : ∀ (l : Lexer), Loaded l →
    (consumeN l n).previous_chr = ((chars l).drop (n - 1)).head? := by
  induction n with
  | zero => omega
  | succ k ih =>
    intro l hld
    rcases Nat.eq_or_lt_of_le hn with h1 | h1
    · have hk : k = 0 := by omega
      subst hk
      show (next_char l).previous_chr = _
      cases hc : l.current_chr with
      | none => simp [next_char, hc, chars, hld hc]
      | some c => simp [next_char, hc, chars]
    · have hk : 1 ≤ k := by omega
      have := ih hk (next_char l) (loaded_next_char l)
      rw [chars_next_char] at this
      rw [show consumeN l (k + 1) = consumeN (next_char l) k from rfl, this]
      cases hc : l.current_chr with
      | none =>
        have := hld hc
        simp [chars, hc, this]
      | some c =>
        simp only [chars, hc, Option.toList_some, List.singleton_append]
        rw [show k + 1 - 1 = (k - 1) + 1 from by omega, List.drop_succ_cons]

/-! Unfolding lemmas for the scanner loops. -/

lemma ident_loop_none (l : Lexer) (acc : List Char) (h : l.current_chr = none) :
    ident_loop l acc = (acc, l) := by
  rw [ident_loop.eq_def]
  split
  · rename_i c hc; rw [h] at hc; exact absurd hc (by simp)
  · rfl

lemma ident_loop_pos (l : Lexer) (acc : List Char) (c : Char)
    (h : l.current_chr = some c) (ha : (c.isAlphanum || c == '_') = true) :
    ident_loop l acc = ident_loop (next_char l) (acc ++ [c]) := by
  rw [ident_loop.eq_def]
  split
  · rename_i c' hc
    rw [h] at hc
    obtain rfl : c' = c := by injection hc.symm
    simp [ha]
  · rename_i hc; rw [h] at hc; exact absurd hc (by simp)

lemma ident_loop_neg (l : Lexer) (acc : List Char) (c : Char)
    (h : l.current_chr = some c) (ha : (c.isAlphanum || c == '_') = false) :
    ident_loop l acc = (acc, l) := by
  rw [ident_loop.eq_def]
  split
  · rename_i c' hc
    rw [h] at hc
    obtain rfl : c' = c := by injection hc.symm
    simp [ha]
  · rfl

lemma number_loop_none (l : Lexer) (acc : List Char) (h : l.current_chr = none) :
    number_loop l acc = (acc, l) := by
  rw [number_loop.eq_def]
  split
  · rename_i c hc; rw [h] at hc; exact absurd hc (by simp)
  · rfl

lemma number_loop_pos (l : Lexer) (acc : List Char) (c : Char)
    (h : l.current_chr = some c) (ha : (c.isDigit || c == '.') = true) :
    number_loop l acc = number_loop (next_char l) (acc ++ [c]) := by
  rw [number_loop.eq_def]
  split
  · rename_i c' hc
    rw [h] at hc
    obtain rfl : c' = c := by injection hc.symm
    simp [ha]
  · rename_i hc; rw [h] at hc; exact absurd hc (by simp)

lemma number_loop_neg (l : Lexer) (acc : List Char) (c : Char)
    (h : l.current_chr = some c) (ha : (c.isDigit || c == '.') = false) :
    number_loop l acc = (acc, l) := by
  rw [number_loop.eq_def]
  split
  · rename_i c' hc
    rw [h] at hc
    obtain rfl : c' = c := by injection hc.symm
    simp [ha]
  · rfl

lemma quoted_loop_none (l : Lexer) (acc : List Char) (h : l.current_chr = none) :
    quoted_loop l acc = (acc, l) := by
  rw [quoted_loop.eq_def]
  split
  · rename_i c hc; rw [h] at hc; exact absurd hc (by simp)
  · rfl

lemma quoted_loop_pos (l : Lexer) (acc : List Char) (c : Char)
    (h : l.current_chr = some c) (ha : (c == '"') = false) :
    quoted_loop l acc = quoted_loop (next_char l) (acc ++ [c]) := by
  rw [quoted_loop.eq_def]
  split
  · rename_i c' hc
    rw [h] at hc
    obtain rfl : c' = c := by injection hc.symm
    simp [ha]
  · rename_i hc; rw [h] at hc; exact absurd hc (by simp)

lemma quoted_loop_stop (l : Lexer) (acc : List Char)
    (h : l.current_chr = some '"') : quoted_loop l acc = (acc, l) := by
  rw [quoted_loop.eq_def]
  split
  · rename_i c' hc
    rw [h] at hc
    obtain rfl : c' = '"' := by injection hc.symm
    simp
  · rfl

/-! Behaviour of the loops over a known stream. -/

lemma ident_loop_run : ∀ (xs : List Char) (l : Lexer) (ys acc : List Char),
    (∀ c ∈ xs, (c.isAlphanum || c == '_') = true) → Loaded l →
    chars l = xs ++ ys →
    (∀ c, ys.head? = some c → (c.isAlphanum || c == '_') = false) →
    ident_loop l acc = (acc ++ xs, consumeN l xs.length) := by
  intro xs
  induction xs with
  | nil =>
    intro l ys acc _ hld hch hb
    cases hc : l.current_chr with
    | none => simp [ident_loop_none l acc hc, consumeN]
    | some c =>
      have hy : ys.head? = some c := by
        simp only [List.nil_append] at hch
        subst hch
        simp [chars, hc]
      simp [ident_loop_neg l acc c hc (hb c hy), consumeN]
  | cons x xs ih =>
    intro l ys acc hxs hld hch hb
    obtain ⟨hc, hin⟩ := cur_of_chars_cons l x (xs ++ ys) hld hch
    rw [ident_loop_pos l acc x hc (hxs x (by simp))]
    rw [ih (next_char l) ys (acc ++ [x]) (fun c hcm => hxs c (by simp [hcm]))
      (loaded_next_char l) (by rw [chars_next_char, hin]) hb]
    simp [consumeN]

lemma number_loop_run : ∀ (xs : List Char) (l : Lexer) (ys acc : List Char),
    (∀ c ∈ xs, (c.isDigit || c == '.') = true) → Loaded l →
    chars l = xs ++ ys →
    (∀ c, ys.head? = some c → (c.isDigit || c == '.') = false) →
    number_loop l acc = (acc ++ xs, consumeN l xs.length) := by
  intro xs
  induction xs with
  | nil =>
    intro l ys acc _ hld hch hb
    cases hc : l.current_chr with
    | none => simp [number_loop_none l acc hc, consumeN]
    | some c =>
      have hy : ys.head? = some c := by
        simp only [List.nil_append] at hch
        subst hch
        simp [chars, hc]
      simp [number_loop_neg l acc c hc (hb c hy), consumeN]
  | cons x xs ih =>
    intro l ys acc hxs hld hch hb
    obtain ⟨hc, hin⟩ := cur_of_chars_cons l x (xs ++ ys) hld hch
    rw [number_loop_pos l acc x hc (hxs x (by simp))]
    rw [ih (next_char l) ys (acc ++ [x]) (fun c hcm => hxs c (by simp [hcm]))
      (loaded_next_char l) (by rw [chars_next_char, hin]) hb]
    simp [consumeN]

lemma quoted_loop_run : ∀ (xs : List Char) (l : Lexer) (ys acc : List Char),
    (∀ c ∈ xs, c ≠ '"') → Loaded l → chars l = xs ++ ys →
    (∀ c, ys.head? = some c → c = '"') →
    quoted_loop l acc = (acc ++ xs, consumeN l xs.length) := by
  intro xs
  induction xs with
  | nil =>
    intro l ys acc _ hld hch hb
    cases hc : l.current_chr with
    | none => simp [quoted_loop_none l acc hc, consumeN]
    | some c =>
      have hy : ys.head? = some c := by
        simp only [List.nil_append] at hch
        subst hch
        simp [chars, hc]
      have := hb c hy
      subst this
      simp [quoted_loop_stop l acc hc, consumeN]
  | cons x xs ih =>
    intro l ys acc hxs hld hch hb
    obtain ⟨hc, hin⟩ := cur_of_chars_cons l x (xs ++ ys) hld hch
    have hx : (x == '"') = false := by
      simp only [beq_eq_false_iff_ne, ne_eq]
      exact hxs x (by simp)
    rw [quoted_loop_pos l acc x hc hx]
    rw [ih (next_char l) ys (acc ++ [x]) (fun c hcm => hxs c (by simp [hcm]))
      (loaded_next_char l) (by rw [chars_next_char, hin]) hb]
    simp [consumeN]

/-! Computation lemmas for is_newline, skip_body and the whitespace skip. -/

lemma is_newline_lf (l : Lexer) (h : l.current_chr = some '\n') :
    is_newline l = (true, l) := by
  simp [is_newline, h]

lemma is_newline_crlf (l : Lexer) (h : l.current_chr = some '\r')
    (hp : l.input.head? = some '\n') : is_newline l = (true, next_char l) := by
  simp [is_newline, h, hp]

lemma is_newline_cr (l : Lexer) (h : l.current_chr = some '\r')
    (hp : l.input.head? ≠ some '\n') : is_newline l = (false, l) := by
  unfold is_newline
  rw [h]
  cases hi : l.input.head? with
  | none => rfl
  | some w =>
    have hw : w ≠ '\n' := fun hww => hp (hww ▸ hi)
    simp [hw]

lemma is_newline_other (l : Lexer) (c : Char) (h : l.current_chr = some c)
    (h1 : c ≠ '\n') (h2 : c ≠ '\r') : is_newline l = (false, l) := by
  unfold is_newline
  rw [h]
  split
  · rename_i hc; exact absurd (by injection hc) h1
  · rename_i hc heq; exact absurd (by injection heq) h2
  · rfl

lemma skip_body_of_newline (l m : Lexer) (h : is_newline l = (true, m)) :
    skip_body l = { m with row := m.row + 1, column := 0 } := by
  simp [skip_body, h]

lemma skip_body_of_not_newline (l : Lexer) (h : is_newline l = (false, l)) :
    skip_body l = { l with column := l.column + 1 } := by
  simp [skip_body, h]

lemma skip_none (l : Lexer) (h : l.current_chr = none) :
    skip_redundant_characters l = l := by
  rw [skip_redundant_characters.eq_def]
  split
  · rfl
  · rename_i c hc; rw [h] at hc; exact absurd hc (by simp)

lemma skip_ws_step (l : Lexer) (c : Char) (h : l.current_chr = some c)
    (hw : rust_is_whitespace c = true) :
    skip_redundant_characters l =
      skip_redundant_characters (next_char (skip_body l)) := by
  rw [skip_redundant_characters.eq_def]
  split
  · rename_i hc; rw [h] at hc; exact absurd hc (by simp)
  · rename_i c' hc
    rw [h] at hc
    obtain rfl : c' = c := by injection hc.symm
    simp [hw]

lemma skip_nonws (l : Lexer) (c : Char) (h : l.current_chr = some c)
    (hw : rust_is_whitespace c = false) :
    skip_redundant_characters l = l := by
  have hne := nonws_ne_newline c hw
  have hnl : is_newline l = (false, l) := is_newline_other l c h hne.1 hne.2
  rw [skip_redundant_characters.eq_def]
  split
  · rfl
  · rename_i c' hc
    rw [h] at hc
    obtain rfl : c' = c := by injection hc.symm
    simp [hw, hnl]

lemma skip_run : ∀ (n : Nat) (ws : List Char) (l : Lexer) (rest : List Char),
    ws.length ≤ n → Loaded l → chars l = ws ++ rest →
    (∀ c ∈ ws, rust_is_whitespace c = true) →
    (∀ c, rest.head? = some c → rust_is_whitespace c = false) →
    chars (skip_redundant_characters l) = rest ∧
    Loaded (skip_redundant_characters l) ∧
    (skip_redundant_characters l).row = l.row + ws.count '\n' ∧
    (skip_redundant_characters l).current_char_processed =
      l.current_char_processed ∧
    (ws = [] → skip_redundant_characters l = l) ∧
    (ws.getLast? = some '\n' →
      (skip_redundant_characters l).column = if rest.isEmpty then 0 else 1) := by
  intro n
  induction n with
  | zero =>
    intro ws l rest hn hld hch hws hb
    have hwsnil : ws = [] := List.length_eq_zero.mp (Nat.le_zero.mp hn)
    subst hwsnil
    simp only [List.nil_append] at hch
    have hid : skip_redundant_characters l = l := by
      cases hr : rest with
      | nil =>
        subst hr
        exact skip_none l (cur_of_chars_nil l hld hch).1
      | cons r t =>
        subst hr
        exact skip_nonws l r (cur_of_chars_cons l r t hld hch).1 (hb r rfl)
    rw [hid]
    simp [hch, hld]
  | succ n ih =>
    intro ws l rest hn hld hch hws hb
    cases ws with
    | nil =>
      simp only [List.nil_append] at hch
      have hid : skip_redundant_characters l = l := by
        cases hr : rest with
        | nil =>
          subst hr
          exact skip_none l (cur_of_chars_nil l hld hch).1
        | cons r t =>
          subst hr
          exact skip_nonws l r (cur_of_chars_cons l r t hld hch).1 (hb r rfl)
      rw [hid]
      simp [hch, hld]
    | cons c ws' =>
      obtain ⟨hc, hin⟩ := cur_of_chars_cons l c (ws' ++ rest) hld hch
      have hw : rust_is_whitespace c = true := hws c (by simp)
      rw [skip_ws_step l c hc hw]
      by_cases hlf : c = '\n'
      · subst hlf
        have hbody : skip_body l = { l with row := l.row + 1, column := 0 } :=
          skip_body_of_newline l l (is_newline_lf l hc)
        set m := next_char (skip_body l) with hm
        have hmch : chars m = ws' ++ rest := by
          rw [hm, hbody, chars_next_char]
          exact hin
        have hmld : Loaded m := loaded_next_char _
        have hmrow : m.row = l.row + 1 := by rw [hm, hbody]; rfl
        have hmfl : m.current_char_processed = l.current_char_processed := by
          rw [hm, hbody]; rfl
        obtain ⟨ih1, ih2, ih3, ih4, ih5, ih6⟩ :=
          ih ws' m rest (by simpa using hn) hmld hmch
            (fun d hd => hws d (by simp [hd])) hb
        refine ⟨ih1, ih2, ?_, by rw [ih4, hmfl], by simp, ?_⟩
        · rw [ih3, hmrow]
          simp [List.count_cons]
          omega
        · intro hlast
          cases hws' : ws' with
          | nil =>
            subst hws'
            rw [ih5 rfl]
            rw [hm, hbody]
            simp only [next_char]
            have : l.input = rest := hin
            rw [this]
            cases hr : rest <;> simp [hr]
          | cons w ws'' =>
            apply ih6
            rw [hws'] at hlast ⊢
            rwa [List.getLast?_cons_cons] at hlast
      · by_cases hcr : c = '\r'
        · subst hcr
          cases hws'c : ws' with
          | nil =>
            subst hws'c
            have hpk : l.input.head? ≠ some '\n' := by
              rw [hin]
              simp only [List.nil_append]
              intro hcon
              have := hb '\n' hcon
              simp [rust_is_whitespace] at this
            have hbody : skip_body l = { l with column := l.column + 1 } :=
              skip_body_of_not_newline l (is_newline_cr l hc hpk)
            set m := next_char (skip_body l) with hm
            have hmch : chars m = rest := by
              rw [hm, hbody, chars_next_char]
              exact hin
            have hmld : Loaded m := loaded_next_char _
            obtain ⟨ih1, ih2, ih3, ih4, ih5, ih6⟩ :=
              ih [] m rest (by simp) hmld (by simpa using hmch)
                (by simp) hb
            refine ⟨ih1, ih2, ?_, ?_, by simp, ?_⟩
            · rw [ih3, hm, hbody]
              simp [next_char, List.count_cons]
            · rw [ih4, hm, hbody]; rfl
            · intro hlast
              simp at hlast
          | cons w ws'' =>
            subst hws'c
            by_cases hwlf : w = '\n'
            · subst hwlf
              have hpk : l.input.head? = some '\n' := by
                rw [hin]; rfl
              have hbody :=
                skip_body_of_newline l (next_char l) (is_newline_crlf l hc hpk)
              set m := next_char (skip_body l) with hm
              have hmch : chars m = ws'' ++ rest := by
                rw [hm, hbody, chars_next_char]
                show (next_char l).input = ws'' ++ rest
                simp [next_char, hin]
              have hmld : Loaded m := loaded_next_char _
              have hmrow : m.row = l.row + 1 := by rw [hm, hbody]; rfl
              have hmfl : m.current_char_processed =
                  l.current_char_processed := by rw [hm, hbody]; rfl
              obtain ⟨ih1, ih2, ih3, ih4, ih5, ih6⟩ :=
                ih ws'' m rest (by simp at hn ⊢; omega) hmld hmch
                  (fun d hd => hws d (by simp [hd])) hb
              refine ⟨ih1, ih2, ?_, by rw [ih4, hmfl], by simp, ?_⟩
              · rw [ih3, hmrow]
                simp [List.count_cons]
                omega
              · intro hlast
                cases hws'' : ws'' with
                | nil =>
                  subst hws''
                  rw [ih5 rfl]
                  have hi2 : (skip_body l).input = rest := by
                    rw [hbody]
                    show (next_char l).input = rest
                    simp [next_char, hin]
                  have hc0 : (skip_body l).column = 0 := by rw [hbody]
                  rw [hm]
                  simp only [next_char, hi2, hc0]
                  cases hr : rest <;> simp [hr]
                | cons v ws3 =>
                  apply ih6
                  rw [hws''] at hlast ⊢
                  rw [List.getLast?_cons_cons] at hlast
                  rwa [List.getLast?_cons_cons] at hlast
            · have hpk : l.input.head? ≠ some '\n' := by
                rw [hin]
                simp only [List.cons_append, List.head?_cons]
                intro hcon
                exact hwlf (by injection hcon)
              have hbody : skip_body l = { l with column := l.column + 1 } :=
                skip_body_of_not_newline l (is_newline_cr l hc hpk)
              set m := next_char (skip_body l) with hm
              have hmch : chars m = (w :: ws'') ++ rest := by
                rw [hm, hbody, chars_next_char]
                exact hin
              have hmld : Loaded m := loaded_next_char _
              have hmrow : m.row = l.row := by rw [hm, hbody]; rfl
              have hmfl : m.current_char_processed =
                  l.current_char_processed := by rw [hm, hbody]; rfl
              obtain ⟨ih1, ih2, ih3, ih4, ih5, ih6⟩ :=
                ih (w :: ws'') m rest (by simpa using hn) hmld hmch
                  (fun d hd => hws d (by simp [hd])) hb
              refine ⟨ih1, ih2, ?_, by rw [ih4, hmfl], by simp, ?_⟩
              · rw [ih3, hmrow]
                simp [List.count_cons]
              · intro hlast
                apply ih6
                rwa [List.getLast?_cons_cons] at hlast
        · have hne : c ≠ '\n' ∧ c ≠ '\r' := ⟨hlf, hcr⟩
          have hbody : skip_body l = { l with column := l.column + 1 } :=
            skip_body_of_not_newline l (is_newline_other l c hc hne.1 hne.2)
          set m := next_char (skip_body l) with hm
          have hmch : chars m = ws' ++ rest := by
            rw [hm, hbody, chars_next_char]
            exact hin
          have hmld : Loaded m := loaded_next_char _
          have hmrow : m.row = l.row := by rw [hm, hbody]; rfl
          have hmfl : m.current_char_processed =
              l.current_char_processed := by rw [hm, hbody]; rfl
          obtain ⟨ih1, ih2, ih3, ih4, ih5, ih6⟩ :=
            ih ws' m rest (by simpa using hn) hmld hmch
              (fun d hd => hws d (by simp [hd])) hb
          refine ⟨ih1, ih2, ?_, by rw [ih4, hmfl], by simp, ?_⟩
          · rw [ih3, hmrow]
            simp [List.count_cons, hlf]
          · intro hlast
            cases hws' : ws' with
            | nil =>
              subst hws'
              simp at hlast
              exact absurd hlast hlf
            | cons w ws'' =>
              apply ih6
              rw [hws'] at hlast ⊢
              rwa [List.getLast?_cons_cons] at hlast

/-! Entry step and exhaustion. -/

lemma advance_true (l : Lexer) (h : l.current_char_processed = true) :
    advance_if_processed l = next_char l := by
  simp [advance_if_processed, h]

lemma advance_false (l : Lexer) (h : l.current_char_processed = false) :
    advance_if_processed l = { l with current_char_processed := true } := by
  simp [advance_if_processed, h]

lemma advance_loaded (l : Lexer) (h : Loaded l) :
    Loaded (advance_if_processed l) := by
  cases hf : l.current_char_processed with
  | true => rw [advance_true l hf]; exact loaded_next_char l
  | false =>
    rw [advance_false l hf]
    intro hcur
    exact h hcur

lemma advance_chars_false (l : Lexer) (h : l.current_char_processed = false) :
    chars (advance_if_processed l) = chars l := by
  rw [advance_false l h]
  rfl

lemma new_start (s : List Char) :
    advance_if_processed (Lexer.new s) = next_char (Lexer.new s) ∧
    chars (advance_if_processed (Lexer.new s)) = s ∧
    Loaded (advance_if_processed (Lexer.new s)) ∧
    (advance_if_processed (Lexer.new s)).row = 0 ∧
    (advance_if_processed (Lexer.new s)).current_char_processed = true := by
  have h1 : advance_if_processed (Lexer.new s) = next_char (Lexer.new s) :=
    advance_true _ rfl
  refine ⟨h1, ?_, h1 ▸ loaded_next_char _, h1 ▸ rfl, h1 ▸ rfl⟩
  rw [h1, chars_next_char]
  rfl

lemma next_token_exhausted (l : Lexer)
    (hld : Loaded (advance_if_processed l))
    (hch : chars (advance_if_processed l) = []) :
    next_token l =
      some (.err { message := "No more tokens" }, advance_if_processed l) := by
  obtain ⟨hc, _⟩ := cur_of_chars_nil _ hld hch
  unfold next_token
  rw [skip_none _ hc]
  simp [hc]

/-! Facts about the modelled numeric parsing functions. -/

lemma bigint_from_str_digits (xs : List Char) (hne : xs ≠ [])
    (hdig : ∀ c ∈ xs, c.isDigit = true) :
    bigint_from_str xs = some ((decimal_value xs : Nat) : Int) := by
  obtain ⟨x, t, rfl⟩ : ∃ x t, xs = x :: t := by
    cases xs with
    | nil => exact absurd rfl hne
    | cons x t => exact ⟨x, t, rfl⟩
  have hx := hdig x (by simp)
  rw [isDigit_iff] at hx
  have hp : x ≠ '+' := by
    rw [ne_eq, char_eq_iff]
    have h43 : ('+' : Char).toNat = 43 := rfl
    omega
  have hmn : x ≠ '-' := by
    rw [ne_eq, char_eq_iff]
    have h45 : ('-' : Char).toNat = 45 := rfl
    omega
  have hall : (x :: t).all (fun c => c.isDigit) = true := by
    rw [List.all_eq_true]
    exact hdig
  unfold bigint_from_str
  split
  · rename_i heq
    exact absurd (by injection heq) hp
  · rename_i heq
    exact absurd (by injection heq) hmn
  · simp [hall]

lemma f64_from_str_ok (xs : List Char)
    (hall : ∀ c ∈ xs, (c.isDigit || c == '.') = true)
    (hcount : xs.count '.' ≤ 1) (hany : ∃ c ∈ xs, c.isDigit = true) :
    f64_from_str xs = some (String.mk xs) := by
  unfold f64_from_str
  rw [if_pos]
  simp only [Bool.and_eq_true, List.any_eq_true, List.all_eq_true,
    decide_eq_true_eq]
  obtain ⟨c, hcm, hc⟩ := hany
  exact ⟨⟨⟨c, hcm, hc⟩, hall⟩, hcount⟩

/-! Behaviour of the token handlers over a known stream. -/

lemma consumeN_cur_none (l : Lexer) (s : List Char) (hld : Loaded l)
    (hch : chars l = s) :
    (consumeN l s.length).current_chr = none ∧
    (consumeN l s.length).input = [] := by
  obtain ⟨h1, h2⟩ := consumeN_chars s.length l hld
  rw [hch] at h1
  simp only [List.drop_length] at h1
  exact cur_of_chars_nil _ h2 h1

lemma handle_number_int (l : Lexer) (xs rest : List Char) (hld : Loaded l)
    (hch : chars l = xs ++ rest) (hne : xs ≠ [])
    (hxs : ∀ c ∈ xs, (c.isDigit || c == '.') = true)
    (hb : ∀ c, rest.head? = some c → (c.isDigit || c == '.') = false)
    (hcount : xs.count '.' = 0) :
    handle_number l =
      some (.ok (.IntValue (decimal_value xs)),
        { consumeN l xs.length with current_char_processed := false }) := by
  have hloop := number_loop_run xs l rest [] hxs hld hch hb
  simp only [List.nil_append] at hloop
  have hdot : '.' ∉ xs := List.count_eq_zero.mp hcount
  have hdig : ∀ c ∈ xs, c.isDigit = true := by
    intro c hcm
    have := hxs c hcm
    simp only [Bool.or_eq_true, beq_iff_eq] at this
    rcases this with h | h
    · exact h
    · exact absurd (h ▸ hcm) hdot
  simp only [handle_number, hloop, hcount,
    bigint_from_str_digits xs hne hdig]

lemma handle_number_float (l : Lexer) (xs rest : List Char) (hld : Loaded l)
    (hch : chars l = xs ++ rest)
    (hxs : ∀ c ∈ xs, (c.isDigit || c == '.') = true)
    (hb : ∀ c, rest.head? = some c → (c.isDigit || c == '.') = false)
    (hcount : xs.count '.' = 1) (hany : ∃ c ∈ xs, c.isDigit = true) :
    handle_number l =
      some (.ok (.FloatValue (String.mk xs)),
        { consumeN l xs.length with current_char_processed := false }) := by
  have hloop := number_loop_run xs l rest [] hxs hld hch hb
  simp only [List.nil_append] at hloop
  simp only [handle_number, hloop, hcount,
    f64_from_str_ok xs hxs (by omega) hany]

lemma handle_number_many (l : Lexer) (xs rest : List Char) (hld : Loaded l)
    (hch : chars l = xs ++ rest)
    (hxs : ∀ c ∈ xs, (c.isDigit || c == '.') = true)
    (hb : ∀ c, rest.head? = some c → (c.isDigit || c == '.') = false)
    (hcount : 2 ≤ xs.count '.') :
    handle_number l =
      some (.err { message := "Invalid number - too many dot seperators" },
        { consumeN l xs.length with current_char_processed := false }) := by
  have hloop := number_loop_run xs l rest [] hxs hld hch hb
  simp only [List.nil_append] at hloop
  obtain ⟨k, hk⟩ : ∃ k, xs.count '.' = k + 2 := ⟨xs.count '.' - 2, by omega⟩
  simp only [handle_number, hloop, hk]

lemma handle_identifier_run (l : Lexer) (s : List Char) (hld : Loaded l)
    (hch : chars l = s) (hne : s ≠ [])
    (hall : ∀ c ∈ s, (c.isAlphanum || c == '_') = true) :
    handle_identifier l =
      some ((match identifiers_lookup (String.mk s) with
        | some tok => .ok tok
        | none => .ok (.Symbol (String.mk s))),
       { consumeN l s.length with current_char_processed := false }) := by
  have hloop := ident_loop_run s l [] [] hall hld (by simpa using hch)
    (by simp)
  simp only [List.nil_append] at hloop
  obtain ⟨hcn, hin⟩ := consumeN_cur_none l s hld hch
  simp only [handle_identifier, hloop]
  cases hlk : identifiers_lookup (String.mk s) with
  | some tok => rfl
  | none =>
    by_cases hlen : s.length = 1
    · have hprev : (consumeN l s.length).previous_chr = s.head? := by
        rw [consumeN_prev s.length (by omega) l hld, hch, hlen]
        rfl
      obtain ⟨x, t, rfl⟩ : ∃ x t, s = x :: t := by
        cases s with
        | nil => exact absurd rfl hne
        | cons x t => exact ⟨x, t, rfl⟩
      simp only [List.head?_cons] at hprev
      rw [hlen] at hprev hcn
      simp [hlen, hprev, hcn]
    · simp [hlen]

/-! Dispatch plumbing for next_token. -/

lemma next_token_at (l0 m : Lexer) (c : Char)
    (hm : skip_redundant_characters (advance_if_processed l0) = m)
    (hc : m.current_chr = some c) :
    next_token l0 =
      if c.isAlpha || c == '_' then handle_identifier m
      else if c.isDigit then handle_number m
      else if c == '"' then handle_string m
      else if c == '\'' then handle_char m
      else if get_operators.contains c then handle_operator m
      else if get_delimiters.contains c then handle_delimiter m
      else some (.err { message := "Failed to lex source" }, m) := by
  simp only [next_token, hm, hc]

lemma next_token_err_no_more (l0 : Lexer)
    (h : (skip_redundant_characters (advance_if_processed l0)).current_chr =
      none) :
    next_token l0 = some (.err { message := "No more tokens" },
      skip_redundant_characters (advance_if_processed l0)) := by
  simp only [next_token, h]

lemma chars_set_flag (l : Lexer) (b : Bool) :
    chars { l with current_char_processed := b } = chars l := rfl

lemma loaded_set_flag (l : Lexer) (b : Bool) (h : Loaded l) :
    Loaded { l with current_char_processed := b } := h

lemma run_one_exhausted (l1 : Lexer) (hld : Loaded l1) (hch : chars l1 = []) :
    run l1 1 = [.failure "No more tokens"] := by
  have hin : l1.input = [] := by
    cases hc : l1.current_chr with
    | none => exact hld hc
    | some c => simp [chars, hc] at hch
  have hadv_ld : Loaded (advance_if_processed l1) := advance_loaded l1 hld
  have hadv_ch : chars (advance_if_processed l1) = [] := by
    cases hf : l1.current_char_processed
    · rw [advance_chars_false l1 hf]
      exact hch
    · rw [advance_true l1 hf, chars_next_char]
      exact hin
  have hcur := (cur_of_chars_nil _ hadv_ld hadv_ch).1
  have hnt := next_token_err_no_more l1 (by rw [skip_none _ hcur]; exact hcur)
  simp [run, hnt]

lemma string_eta (s : String) : String.mk s.data = s := rfl

lemma msr_next_char_lt (m : Lexer) (c : Char) (h : m.current_chr = some c) :
    msr (next_char m) < msr m := by
  cases hi : m.input with
  | nil => simp [msr, next_char, h, hi]
  | cons a t => simp [msr, next_char, h, hi]

/-! Invariants of ident_loop over arbitrary states, for the symbol-shape
theorem. -/

lemma ident_loop_all_inv : ∀ (n : Nat) (m : Lexer) (acc : List Char),
    msr m ≤ n → (∀ c ∈ acc, (c.isAlphanum || c == '_') = true) →
    ∀ c ∈ (ident_loop m acc).1, (c.isAlphanum || c == '_') = true := by
  intro n
  induction n with
  | zero =>
    intro m acc hn hacc
    cases hc : m.current_chr with
    | none => rw [ident_loop_none m acc hc]; exact hacc
    | some c =>
      exact absurd (msr_next_char_lt m c hc)
        (by have := Nat.le_zero.mp hn; omega)
  | succ n ih =>
    intro m acc hn hacc
    cases hc : m.current_chr with
    | none => rw [ident_loop_none m acc hc]; exact hacc
    | some c =>
      cases hg : (c.isAlphanum || c == '_') with
      | false => rw [ident_loop_neg m acc c hc hg]; exact hacc
      | true =>
        rw [ident_loop_pos m acc c hc hg]
        apply ih (next_char m) (acc ++ [c])
        · have := msr_next_char_lt m c hc
          omega
        · intro d hd
          rcases List.mem_append.mp hd with h | h
          · exact hacc d h
          · simp at h
            subst h
            exact hg

lemma ident_loop_prefix : ∀ (n : Nat) (m : Lexer) (acc : List Char),
    msr m ≤ n → ∃ xs, (ident_loop m acc).1 = acc ++ xs := by
  intro n
  induction n with
  | zero =>
    intro m acc hn
    cases hc : m.current_chr with
    | none => exact ⟨[], by rw [ident_loop_none m acc hc]; simp⟩
    | some c =>
      exact absurd (msr_next_char_lt m c hc)
        (by have := Nat.le_zero.mp hn; omega)
  | succ n ih =>
    intro m acc hn
    cases hc : m.current_chr with
    | none => exact ⟨[], by rw [ident_loop_none m acc hc]; simp⟩
    | some c =>
      cases hg : (c.isAlphanum || c == '_') with
      | false => exact ⟨[], by rw [ident_loop_neg m acc c hc hg]; simp⟩
      | true =>
        rw [ident_loop_pos m acc c hc hg]
        obtain ⟨xs, hxs⟩ := ih (next_char m) (acc ++ [c])
          (by have := msr_next_char_lt m c hc; omega)
        exact ⟨c :: xs, by rw [hxs]; simp⟩

lemma ident_loop_prev_inv : ∀ (n : Nat) (m : Lexer) (acc : List Char),
    msr m ≤ n → (∃ d, m.previous_chr = some d) →
    ∃ d, (ident_loop m acc).2.previous_chr = some d := by
  intro n
  induction n with
  | zero =>
    intro m acc hn hp
    cases hc : m.current_chr with
    | none => rw [ident_loop_none m acc hc]; exact hp
    | some c =>
      exact absurd (msr_next_char_lt m c hc)
        (by have := Nat.le_zero.mp hn; omega)
  | succ n ih =>
    intro m acc hn hp
    cases hc : m.current_chr with
    | none => rw [ident_loop_none m acc hc]; exact hp
    | some c =>
      cases hg : (c.isAlphanum || c == '_') with
      | false => rw [ident_loop_neg m acc c hc hg]; exact hp
      | true =>
        rw [ident_loop_pos m acc c hc hg]
        apply ih (next_char m) (acc ++ [c])
        · have := msr_next_char_lt m c hc
          omega
        · exact ⟨c, by simp [next_char, hc]⟩

lemma lookup_no_symbol (s : String) (tok : Token)
    (h : identifiers_lookup s = some tok) : ∀ nm, tok ≠ .Symbol nm := by
  unfold identifiers_lookup at h
  rw [Option.map_eq_some'] at h
  obtain ⟨p, hf, hp2⟩ := h
  have hmem := List.mem_of_find?_eq_some hf
  subst hp2
  fin_cases hmem <;> simp

lemma handle_number_no_symbol (m l' : Lexer) (nm : String) :
    handle_number m ≠ some (.ok (.Symbol nm), l') := by
  intro h
  simp only [handle_number] at h
  split at h <;> (try split at h) <;> simp_all

lemma handle_string_no_symbol (m l' : Lexer) (nm : String) :
    handle_string m ≠ some (.ok (.Symbol nm), l') := by
  intro h
  simp only [handle_string] at h
  split at h <;> (try split at h) <;> simp_all

lemma handle_char_no_symbol (m l' : Lexer) (nm : String) :
    handle_char m ≠ some (.ok (.Symbol nm), l') := by
  intro h
  simp only [handle_char] at h
  split at h <;> (try split at h) <;> (try split at h) <;> simp_all

lemma handle_operator_no_symbol (m l' : Lexer) (nm : String) :
    handle_operator m ≠ some (.ok (.Symbol nm), l') := by
  intro h
  simp only [handle_operator] at h
  split at h
  · simp_all
  · split at h <;> (try split at h) <;> simp_all

lemma handle_delimiter_no_symbol (m l' : Lexer) (nm : String) :
    handle_delimiter m ≠ some (.ok (.Symbol nm), l') := by
  intro h
  simp only [handle_delimiter] at h
  split at h
  · simp_all
  · split at h <;> (try split at h) <;> simp_all

lemma handle_identifier_symbol (m : Lexer) (c : Char)
    (hc : m.current_chr = some c) (h1 : (c.isAlpha || c == '_') = true)
    (nm : String) (l' : Lexer)
    (h : handle_identifier m = some (.ok (.Symbol nm), l')) :
    nm.data ≠ [] ∧
    (∀ d, nm.data.head? = some d → (d.isAlpha || d == '_') = true) ∧
    (∀ d ∈ nm.data, (d.isAlphanum || d == '_') = true) ∧
    identifiers_lookup nm = none := by
  have hg : (c.isAlphanum || c == '_') = true := by
    simp only [Bool.or_eq_true, beq_iff_eq] at h1 ⊢
    rcases h1 with ha | ha
    · exact Or.inl (alpha_is_alnum c ha)
    · exact Or.inr ha
  have hstep := ident_loop_pos m [] c hc hg
  simp only [List.nil_append] at hstep
  obtain ⟨xs, hxs⟩ :=
    ident_loop_prefix (msr (next_char m)) (next_char m) [c] le_rfl
  have hident : (ident_loop m []).1 = c :: xs := by
    rw [hstep, hxs]
    rfl
  have hall : ∀ d ∈ (ident_loop m []).1,
      (d.isAlphanum || d == '_') = true :=
    ident_loop_all_inv (msr m) m [] le_rfl (by simp)
  have hprev : ∃ d, (ident_loop m []).2.previous_chr = some d := by
    rw [hstep]
    exact ident_loop_prev_inv (msr (next_char m)) (next_char m) [c] le_rfl
      ⟨c, by simp [next_char, hc]⟩
  simp only [handle_identifier] at h
  split at h
  · rename_i tok hlk
    exfalso
    have := lookup_no_symbol _ tok hlk nm
    simp only [Option.some.injEq, Prod.mk.injEq, TokenResult.ok.injEq] at h
    exact this h.1
  · rename_i hlk
    split at h
    · simp at h
    · simp only [Option.some.injEq, Prod.mk.injEq, TokenResult.ok.injEq,
        Token.Symbol.injEq] at h
      obtain ⟨hnm, _⟩ := h
      subst hnm
      refine ⟨by simp [hident], ?_, ?_, hlk⟩
      · intro d hd
        simp only [String.mk] at hd ⊢
        rw [hident] at hd
        simp only [List.head?_cons, Option.some.injEq] at hd
        subst hd
        exact h1
      · intro d hd
        simp only [String.mk] at hd
        exact hall d hd
    · split at h
      · simp at h
      · rename_i c' hc'
        split at h <;> simp_all

lemma mem_of_head_opt (s : List Char) (c : Char) (h : s.head? = some c) :
    c ∈ s := by
  cases s with
  | nil => simp at h
  | cons x t =>
    simp only [List.head?_cons, Option.some.injEq] at h
    simp [h.symm]

lemma run_cons (l l' : Lexer) (tk : Token) (n : Nat)
    (h : next_token l = some (.ok tk, l')) :
    run l (n + 1) = .token tk :: run l' n := by
  simp [run, h]

lemma run_fail (l l' : Lexer) (e : LexerError) (n : Nat)
    (h : next_token l = some (.err e, l')) :
    run l (n + 1) = .failure e.message :: run l' n := by
  simp [run, h]

/-- Common first step: on input xs ++ rest with xs a nonempty digit-headed
numeric run, the first next_token call dispatches to handle_number on the
freshly advanced state. -/
lemma lex_number_start (inp xs rest : List Char) (hsp : inp = xs ++ rest)
    (hne : xs ≠ []) (hhead : ∀ c, xs.head? = some c → c.isDigit = true) :
    next_token (Lexer.new inp) =
      handle_number (advance_if_processed (Lexer.new inp)) ∧
    chars (advance_if_processed (Lexer.new inp)) = xs ++ rest ∧
    Loaded (advance_if_processed (Lexer.new inp)) := by
  obtain ⟨x, t, rfl⟩ : ∃ x t, xs = x :: t := by
    cases xs with
    | nil => exact absurd rfl hne
    | cons x t => exact ⟨x, t, rfl⟩
  have hx : x.isDigit = true := hhead x rfl
  obtain ⟨_, hch, hld, _, _⟩ := new_start inp
  have hch' : chars (advance_if_processed (Lexer.new inp)) =
      x :: (t ++ rest) := by rw [hch, hsp]; rfl
  obtain ⟨hc, _⟩ := cur_of_chars_cons _ x (t ++ rest) hld hch'
  have hskip := skip_nonws _ x hc (not_ws_of_num_char x (Or.inl hx))
  have hnt := next_token_at (Lexer.new inp) _ x hskip hc
  rw [if_neg (by simp [digit_not_ident_start x hx]), if_pos hx] at hnt
  exact ⟨hnt, by rw [hch, hsp], hld⟩

/-- Common path: a standalone identifier-grammar input lexes to the table
token or a symbol, then exhaustion. -/
lemma lex_ident_standalone (s : List Char) (hne : s ≠ [])
    (hhead : ∀ c, s.head? = some c → (c.isAlpha || c == '_') = true)
    (hall : ∀ c ∈ s, (c.isAlphanum || c == '_') = true) :
    run (Lexer.new s) 2 =
      [.token (match identifiers_lookup (String.mk s) with
        | some tok => tok
        | none => .Symbol (String.mk s)),
       .failure "No more tokens"] := by
  obtain ⟨x, t, rfl⟩ : ∃ x t, s = x :: t := by
    cases s with
    | nil => exact absurd rfl hne
    | cons x t => exact ⟨x, t, rfl⟩
  have hx : (x.isAlpha || x == '_') = true := hhead x rfl
  have hxi : x.isAlphanum = true ∨ x = '_' := by
    simp only [Bool.or_eq_true, beq_iff_eq] at hx
    rcases hx with ha | ha
    · exact Or.inl (alpha_is_alnum x ha)
    · exact Or.inr ha
  obtain ⟨_, hch, hld, _, _⟩ := new_start (x :: t)
  obtain ⟨hc, _⟩ := cur_of_chars_cons _ x t hld hch
  have hskip := skip_nonws _ x hc (not_ws_of_ident_char x hxi)
  have hnt := next_token_at (Lexer.new (x :: t)) _ x hskip hc
  rw [if_pos hx] at hnt
  rw [handle_identifier_run _ (x :: t) hld hch hne hall] at hnt
  have hl1ch : chars { consumeN (advance_if_processed (Lexer.new (x :: t)))
      (x :: t).length with current_char_processed := false } = [] := by
    rw [chars_set_flag]
    obtain ⟨h1, _⟩ := consumeN_chars (x :: t).length _ hld
    rw [h1, hch]
    simp
  have hl1ld : Loaded { consumeN (advance_if_processed (Lexer.new (x :: t)))
      (x :: t).length with current_char_processed := false } :=
    loaded_set_flag _ _ (consumeN_chars (x :: t).length _ hld).2
  have hrest := run_one_exhausted _ hl1ld hl1ch
  show run (Lexer.new (x :: t)) (1 + 1) = _
  cases hlk : identifiers_lookup (String.mk (x :: t)) with
  | some tok =>
    simp only [hlk] at hnt ⊢
    rw [run_cons _ _ _ 1 hnt, hrest]
  | none =>
    simp only [hlk] at hnt ⊢
    rw [run_cons _ _ _ 1 hnt, hrest]

/-! Claim theorems. -/

/-- C2: the claim says an unterminated string or byte-string literal makes
next_token return an unterminated-literal LexerError and in particular that
the call cannot fail to produce a result.  The code disagrees: after the
scan loop exits at end of input, char_equals unwraps the absent current
character and panics, so next_token produces no result at all; the
missing-double-quotes error return just below that unwrap is dead code.
This theorem evaluates both failing inputs: an unterminated string literal
and an unterminated byte-string literal each end in a panic. -/
theorem C2_unterminated_literal_panics :
    lex_run "\"abc" 1 = [.panicked] ∧ lex_run "b\"xy" 1 = [.panicked] := by
  constructor <;>
    simp [lex_run, run, next_token, advance_if_processed, Lexer.new,
      next_char, skip_redundant_characters, skip_body, is_newline,
      rust_is_whitespace, handle_identifier, ident_loop, identifiers_lookup,
      get_identifiers_map, handle_number, number_loop, bigint_from_str,
      decimal_value, f64_from_str, handle_string, handle_char, quoted_loop,
      handle_operator, handle_delimiter, get_operators, get_delimiters,
      as_bytes, char_utf8]

/-- C3 counterexample: on the all-whitespace input consisting of one
space, the first next_token call does signal exhaustion, but that signal is
the Err variant of the Result - the same error outcome every lexical
failure uses - with message No more tokens, so exhaustion is not an
outcome distinct from the error outcome as the claim states. -/
theorem C3_counterexample :
    lex_run " " 1 = [.failure "No more tokens"] ∧
    (lex_run " " 1).map Outcome.isFailure = [true] := by
  constructor <;>
    simp [lex_run, run, next_token, advance_if_processed, Lexer.new,
      next_char, skip_redundant_characters, skip_body, is_newline,
      rust_is_whitespace, Outcome.isFailure]

/-- C3 (amended): for every input consisting solely of whitespace and
newline characters, the first next_token call returns the LexerError with
message No more tokens; the code represents exhaustion as an error value
distinguishable from other failures only by its message, not as a
non-error signal. -/
theorem C3_whitespace_exhaustion (s : List Char)
    (hws : ∀ c ∈ s, rust_is_whitespace c = true) :
    run (Lexer.new s) 1 = [.failure "No more tokens"] := by
  obtain ⟨hadv, hch, hld, _, _⟩ := new_start s
  obtain ⟨h1, h2, _, _, _, _⟩ :=
    skip_run s.length s (advance_if_processed (Lexer.new s)) [] le_rfl hld
      (by simpa using hch) hws (by simp)
  have hcur := (cur_of_chars_nil _ h2 h1).1
  have hnt := next_token_err_no_more (Lexer.new s) hcur
  simp [run, hnt]

/-- C3 witness: the amended theorem applied to a concrete whitespace
input. -/
theorem C3_witness :
    run (Lexer.new " \t\n".data) 1 = [.failure "No more tokens"] :=
  C3_whitespace_exhaustion " \t\n".data (by decide)

/-- C4 counterexample: lexing a string literal whose body contains one
newline consumes that newline but leaves the row counter at zero, so it is
not the case that, for every input, the row counter increases by one per
newline consumed; position updates happen only in whitespace skipping. -/
theorem C4_counterexample :
    (next_token (Lexer.new "\"a\nb\"".data)).map
        (fun p => (p.1, p.2.row)) = some (.ok (.StringValue "a\nb"), 0) ∧
    "\"a\nb".data.count '\n' = 1 := by
  constructor
  · simp [next_token, advance_if_processed, Lexer.new, next_char,
      skip_redundant_characters, skip_body, is_newline, rust_is_whitespace,
      handle_string, quoted_loop, get_operators, get_delimiters]
  · decide

/-- C4 (amended): position counters track newlines only during whitespace
skipping: skip_redundant_characters increases the row by exactly one per
newline consumed (a line feed, with a carriage-return-line-feed pair
counting once through its line feed and a bare carriage return never
counting) and resets the column to zero at each newline (the column is
then at most one once the next character is loaded); cursor advancement
outside the skip - in particular inside quoted-literal bodies - never
changes the row. -/
theorem C4_row_column_tracking :
    (∀ (ws rest : List Char) (l : Lexer), Loaded l → chars l = ws ++ rest →
      (∀ c ∈ ws, rust_is_whitespace c = true) →
      (∀ c, rest.head? = some c → rust_is_whitespace c = false) →
      (skip_redundant_characters l).row = l.row + ws.count '\n' ∧
      (ws.getLast? = some '\n' →
        (skip_redundant_characters l).column =
          if rest.isEmpty then 0 else 1)) ∧
    (∀ l : Lexer, (next_char l).row = l.row) := by
  constructor
  · intro ws rest l hld hch hws hb
    obtain ⟨_, _, h3, _, _, h6⟩ :=
      skip_run ws.length ws l rest le_rfl hld hch hws hb
    exact ⟨h3, h6⟩
  · intro l
    rfl

/-- C4 witness: the amended theorem applied to a concrete state holding
one space, one newline and then a letter. -/
theorem C4_witness :
    (skip_redundant_characters
        ⟨['\n', 'x'], some ' ', none, 0, 1, true⟩).row = 0 + 1 ∧
    (skip_redundant_characters
        ⟨['\n', 'x'], some ' ', none, 0, 1, true⟩).column = 1 ∧
    (next_char ⟨['\n', 'x'], some ' ', none, 0, 1, true⟩).row = 0 := by
  have h := C4_row_column_tracking.1 [' ', '\n'] ['x']
    ⟨['\n', 'x'], some ' ', none, 0, 1, true⟩
    (by intro hcon; simp at hcon) (by rfl) (by decide) (by decide)
  refine ⟨by simpa using h.1, by simpa using h.2 (by decide),
    C4_row_column_tracking.2 _⟩

/-- C6: each of the ten two-character operator sequences lexes in
isolation to exactly its single compound token, and the following
next_token call signals exhaustion, so none of them is ever lexed as two
single-character tokens. -/
theorem C6_compound_operators :
    lex_run "!=" 2 = [.token .NotEquals, .failure "No more tokens"] ∧
    lex_run "==" 2 = [.token .Equals, .failure "No more tokens"] ∧
    lex_run "||" 2 = [.token .LogicalOr, .failure "No more tokens"] ∧
    lex_run "&&" 2 = [.token .LogicalAnd, .failure "No more tokens"] ∧
    lex_run ">>" 2 = [.token .BitwiseRightShift, .failure "No more tokens"] ∧
    lex_run "<<" 2 = [.token .BitwiseLeftShift, .failure "No more tokens"] ∧
    lex_run ">=" 2 = [.token .GreaterEqual, .failure "No more tokens"] ∧
    lex_run "<=" 2 = [.token .LessEqual, .failure "No more tokens"] ∧
    lex_run "->" 2 = [.token .FnReturnTypeDelim, .failure "No more tokens"] ∧
    lex_run "::" 2 = [.token .StaticAccessor, .failure "No more tokens"] := by
  refine ⟨?_, ?_, ?_, ?_, ?_, ?_, ?_, ?_, ?_, ?_⟩ <;>
    simp [lex_run, run, next_token, advance_if_processed, Lexer.new,
      next_char, skip_redundant_characters, skip_body, is_newline,
      rust_is_whitespace, handle_operator, handle_delimiter, get_operators,
      get_delimiters]

/-- C9: character literals: two adjacent single quotes are rejected with
the one-codepoint error; a single quote, one non-quote payload character
and a closing quote yield exactly the character token carrying that
payload; and when the character after the payload is not a single quote,
or the input ends there, the missing-closing-quote error is returned. -/
theorem C9_char_literal :
    lex_run "''" 1 =
      [.failure "Character literal may only contain one codepoint"] ∧
    (∀ c : Char, c ≠ '\'' →
      run (Lexer.new ['\'', c, '\'']) 1 = [.token (.CharValue c)]) ∧
    (∀ c d : Char, c ≠ '\'' → d ≠ '\'' →
      run (Lexer.new ['\'', c, d]) 1 =
        [.failure "Failed to parse character value: missing single-quotes"]) ∧
    (∀ c : Char, c ≠ '\'' →
      run (Lexer.new ['\'', c]) 1 =
        [.failure "Failed to parse character value: missing single-quotes"]) := by
  refine ⟨?_, ?_, ?_, ?_⟩
  · simp [lex_run, run, next_token, advance_if_processed, Lexer.new,
      next_char, skip_redundant_characters, skip_body, is_newline,
      rust_is_whitespace, handle_char, get_operators, get_delimiters]
  · intro c hc
    simp [lex_run, run, next_token, advance_if_processed, Lexer.new,
      next_char, skip_redundant_characters, skip_body, is_newline,
      rust_is_whitespace, handle_char, get_operators, get_delimiters, hc]
  · intro c d hc hd
    simp [lex_run, run, next_token, advance_if_processed, Lexer.new,
      next_char, skip_redundant_characters, skip_body, is_newline,
      rust_is_whitespace, handle_char, get_operators, get_delimiters, hc, hd]
  · intro c hc
    simp [lex_run, run, next_token, advance_if_processed, Lexer.new,
      next_char, skip_redundant_characters, skip_body, is_newline,
      rust_is_whitespace, handle_char, get_operators, get_delimiters, hc]

/-- C9 witness: the three quantified conjuncts applied at concrete payload
characters. -/
theorem C9_witness :
    run (Lexer.new ['\'', 'a', '\'']) 1 = [.token (.CharValue 'a')] ∧
    run (Lexer.new ['\'', 'a', 'b']) 1 =
      [.failure "Failed to parse character value: missing single-quotes"] ∧
    run (Lexer.new ['\'', 'a']) 1 =
      [.failure "Failed to parse character value: missing single-quotes"] :=
  ⟨C9_char_literal.2.1 'a' (by decide),
   C9_char_literal.2.2.1 'a' 'b' (by decide) (by decide),
   C9_char_literal.2.2.2 'a' (by decide)⟩

/-- C10: every symbol token next_token ever returns, from any lexer state,
carries a nonempty name whose first character is an ASCII letter or
underscore, whose remaining characters are ASCII alphanumerics or
underscores, and which is not a key of the keyword and builtin-type table;
in particular a symbol name never begins with a digit and never equals a
reserved word. -/
theorem C10_symbol_invariant (l l' : Lexer) (nm : String)
    (h : next_token l = some (.ok (.Symbol nm), l')) :
    nm.data ≠ [] ∧
    (∀ d, nm.data.head? = some d → (d.isAlpha || d == '_') = true) ∧
    (∀ d ∈ nm.data, (d.isAlphanum || d == '_') = true) ∧
    identifiers_lookup nm = none := by
  cases hc : (skip_redundant_characters (advance_if_processed l)).current_chr
    with
  | none =>
    rw [next_token_err_no_more l hc] at h
    simp at h
  | some c =>
    rw [next_token_at l _ c rfl hc] at h
    by_cases h1 : (c.isAlpha || c == '_') = true
    · rw [if_pos h1] at h
      exact handle_identifier_symbol _ c hc h1 nm l' h
    · rw [if_neg h1] at h
      by_cases h2 : c.isDigit = true
      · rw [if_pos h2] at h
        exact absurd h (handle_number_no_symbol _ _ _)
      · rw [if_neg h2] at h
        by_cases h3 : (c == '"') = true
        · rw [if_pos h3] at h
          exact absurd h (handle_string_no_symbol _ _ _)
        · rw [if_neg h3] at h
          by_cases h4 : (c == '\'') = true
          · rw [if_pos h4] at h
            exact absurd h (handle_char_no_symbol _ _ _)
          · rw [if_neg h4] at h
            by_cases h5 : get_operators.contains c = true
            · rw [if_pos h5] at h
              exact absurd h (handle_operator_no_symbol _ _ _)
            · rw [if_neg h5] at h
              by_cases h6 : get_delimiters.contains c = true
              · rw [if_pos h6] at h
                exact absurd h (handle_delimiter_no_symbol _ _ _)
              · rw [if_neg h6] at h
                simp at h

lemma head_opt_intro {P : Char → Prop} (s : List Char) (x : Char)
    (hx : s.head? = some x) (hp : P x) :
    ∀ c, s.head? = some c → P c := by
  intro c hc
  rw [hx] at hc
  exact (Option.some.inj hc) ▸ hp

/-- Second call on a state left by a finished token: the remaining stream
is exactly an identifier-grammar word not in the table, lexing to its
symbol token. -/
lemma next_token_ident_after (l1 : Lexer) (s : List Char)
    (hfl : l1.current_char_processed = false) (hld : Loaded l1)
    (hch : chars l1 = s) (hne : s ≠ [])
    (hhead : ∀ c, s.head? = some c → (c.isAlpha || c == '_') = true)
    (hall : ∀ c ∈ s, (c.isAlphanum || c == '_') = true)
    (hlk : identifiers_lookup (String.mk s) = none) :
    run l1 1 = [.token (.Symbol (String.mk s))] := by
  have hadv : advance_if_processed l1 =
      { l1 with current_char_processed := true } := advance_false l1 hfl
  have hld1 : Loaded { l1 with current_char_processed := true } := hld
  have hch1 : chars { l1 with current_char_processed := true } = s := hch
  obtain ⟨x, t, rfl⟩ : ∃ x t, s = x :: t := by
    cases s with
    | nil => exact absurd rfl hne
    | cons x t => exact ⟨x, t, rfl⟩
  have hx : (x.isAlpha || x == '_') = true := hhead x rfl
  have hxi : x.isAlphanum = true ∨ x = '_' := by
    simp only [Bool.or_eq_true, beq_iff_eq] at hx
    rcases hx with ha | ha
    · exact Or.inl (alpha_is_alnum x ha)
    · exact Or.inr ha
  obtain ⟨hc, _⟩ := cur_of_chars_cons _ x t hld1 hch1
  have hskip := skip_nonws _ x hc (not_ws_of_ident_char x hxi)
  have hnt := next_token_at l1 _ x (by rw [hadv]; exact hskip) hc
  rw [if_pos hx] at hnt
  rw [handle_identifier_run _ (x :: t) hld1 hch1 hne hall] at hnt
  simp only [hlk] at hnt
  show run l1 (0 + 1) = _
  rw [run_cons _ _ _ 0 hnt]
  rfl

/-- C1 counterexample: the input 123abc, a numeric run immediately
followed by letters, does not produce a malformed-numeric-literal error as
the claim requires; the numeric run lexes to the integer token 123 and the
trailing letters lex to a separate symbol token. -/
theorem C1_counterexample :
    lex_run "123abc" 2 = [.token (.IntValue 123), .token (.Symbol "abc")] := by
  simp [lex_run, run, next_token, advance_if_processed, Lexer.new,
    next_char, skip_redundant_characters, skip_body, is_newline,
    rust_is_whitespace, handle_identifier, ident_loop, identifiers_lookup,
    get_identifiers_map, handle_number, number_loop, bigint_from_str,
    decimal_value, f64_from_str, get_operators, get_delimiters]

/-- C1 (amended): for every input in which a maximal numeric run with at
most one decimal point is immediately followed by a letter run that is not
a reserved word, the next_token call that lexes the numeric run returns
its integer or float token - the code has no trailing-letter check - and
the following call returns a separate symbol token for the letters. -/
theorem C1_no_trailing_letter_check (xs ys : List Char) (hxne : xs ≠ [])
    (hhead : ∀ c, xs.head? = some c → c.isDigit = true)
    (hxall : ∀ c ∈ xs, (c.isDigit || c == '.') = true)
    (hyne : ys ≠ []) (hyall : ∀ c ∈ ys, c.isAlpha = true)
    (hlk : identifiers_lookup (String.mk ys) = none) :
    (xs.count '.' = 0 → run (Lexer.new (xs ++ ys)) 2 =
      [.token (.IntValue ((decimal_value xs : Nat) : Int)),
       .token (.Symbol (String.mk ys))]) ∧
    (xs.count '.' = 1 → run (Lexer.new (xs ++ ys)) 2 =
      [.token (.FloatValue (String.mk xs)),
       .token (.Symbol (String.mk ys))]) := by
  obtain ⟨hnt0, hch0, hld0⟩ := lex_number_start (xs ++ ys) xs ys rfl hxne hhead
  have hb : ∀ c, ys.head? = some c → (c.isDigit || c == '.') = false :=
    fun c hc => alpha_not_num_char c (hyall c (mem_of_head_opt _ c hc))
  have hch1 : chars { consumeN (advance_if_processed
      (Lexer.new (xs ++ ys))) xs.length with
      current_char_processed := false } = ys := by
    rw [chars_set_flag, (consumeN_chars xs.length _ hld0).1, hch0,
      List.drop_left]
  have hld1 : Loaded { consumeN (advance_if_processed
      (Lexer.new (xs ++ ys))) xs.length with
      current_char_processed := false } :=
    loaded_set_flag _ _ (consumeN_chars xs.length _ hld0).2
  have hsecond := next_token_ident_after _ ys rfl hld1 hch1 hyne
    (fun c hc => by
      have := hyall c (mem_of_head_opt _ c hc)
      simp [this])
    (fun c hcm => by simp [alpha_is_alnum c (hyall c hcm)]) hlk
  constructor <;> intro hcount
  · have hn := handle_number_int _ xs ys hld0 hch0 hxne hxall hb hcount
    show run (Lexer.new (xs ++ ys)) (1 + 1) = _
    rw [run_cons _ _ _ 1 (hnt0.trans hn), hsecond]
  · have hany : ∃ c ∈ xs, c.isDigit = true := by
      obtain ⟨x, t, rfl⟩ : ∃ x t, xs = x :: t := by
        cases xs with
        | nil => exact absurd rfl hxne
        | cons x t => exact ⟨x, t, rfl⟩
      exact ⟨x, by simp, hhead x rfl⟩
    have hn := handle_number_float _ xs ys hld0 hch0 hxall hb hcount hany
    show run (Lexer.new (xs ++ ys)) (1 + 1) = _
    rw [run_cons _ _ _ 1 (hnt0.trans hn), hsecond]

/-- C1 witness: the amended theorem applied to the numeric run 123
followed by the letters abc. -/
theorem C1_witness :
    run (Lexer.new ("123".data ++ "abc".data)) 2 =
      [.token (.IntValue 123), .token (.Symbol "abc")] := by
  have h := (C1_no_trailing_letter_check "123".data "abc".data (by decide)
    (head_opt_intro _ '1' rfl (by decide)) (by decide) (by decide)
    (by decide) (by rfl)).1 (by decide)
  rw [h]
  rfl

/-- C5: a maximal numeric run lexed in isolation classifies purely by its
decimal-point count: zero points give the arbitrary-precision integer
token whose value is exactly the decimal value of the text (no overflow),
exactly one point gives the 64-bit float token for that text, and two or
more points always give the too-many-separators error regardless of the
digits. -/
theorem C5_numeric_runs (s : List Char) (hne : s ≠ [])
    (hhead : ∀ c, s.head? = some c → c.isDigit = true)
    (hall : ∀ c ∈ s, (c.isDigit || c == '.') = true) :
    (s.count '.' = 0 → run (Lexer.new s) 1 =
      [.token (.IntValue ((decimal_value s : Nat) : Int))]) ∧
    (s.count '.' = 1 → run (Lexer.new s) 1 =
      [.token (.FloatValue (String.mk s))]) ∧
    (2 ≤ s.count '.' → run (Lexer.new s) 1 =
      [.failure "Invalid number - too many dot seperators"]) := by
  obtain ⟨hnt0, hch0, hld0⟩ := lex_number_start s s [] (by simp) hne hhead
  have hb : ∀ c, ([] : List Char).head? = some c →
      (c.isDigit || c == '.') = false := by simp
  refine ⟨?_, ?_, ?_⟩ <;> intro hcount
  · have hn := handle_number_int _ s [] hld0 hch0 hne hall hb hcount
    show run (Lexer.new s) (0 + 1) = _
    rw [run_cons _ _ _ 0 (hnt0.trans hn)]
    rfl
  · have hany : ∃ c ∈ s, c.isDigit = true := by
      obtain ⟨x, t, rfl⟩ : ∃ x t, s = x :: t := by
        cases s with
        | nil => exact absurd rfl hne
        | cons x t => exact ⟨x, t, rfl⟩
      exact ⟨x, by simp, hhead x rfl⟩
    have hn := handle_number_float _ s [] hld0 hch0 hall hb hcount hany
    show run (Lexer.new s) (0 + 1) = _
    rw [run_cons _ _ _ 0 (hnt0.trans hn)]
    rfl
  · have hn := handle_number_many _ s [] hld0 hch0 hall hb hcount
    show run (Lexer.new s) (0 + 1) = _
    rw [run_fail _ _ _ 0 (hnt0.trans hn)]
    rfl

/-- C5 witness: the theorem applied to the four concrete runs of the
specification: 0 and 24454333 as exact integers, 763.433 as a float, and
1.2.3 as the too-many-separators error. -/
theorem C5_witness :
    run (Lexer.new "24454333".data) 1 = [.token (.IntValue 24454333)] ∧
    run (Lexer.new "0".data) 1 = [.token (.IntValue 0)] ∧
    run (Lexer.new "763.433".data) 1 = [.token (.FloatValue "763.433")] ∧
    run (Lexer.new "1.2.3".data) 1 =
      [.failure "Invalid number - too many dot seperators"] := by
  refine ⟨?_, ?_, ?_, ?_⟩
  · have h := (C5_numeric_runs "24454333".data (by decide)
      (head_opt_intro _ '2' rfl (by decide)) (by decide)).1 (by decide)
    rw [h]
    rfl
  · have h := (C5_numeric_runs "0".data (by decide)
      (head_opt_intro _ '0' rfl (by decide)) (by decide)).1 (by decide)
    rw [h]
    rfl
  · have h := (C5_numeric_runs "763.433".data (by decide)
      (head_opt_intro _ '7' rfl (by decide)) (by decide)).2.1 (by decide)
    rw [h]
  · exact (C5_numeric_runs "1.2.3".data (by decide)
      (head_opt_intro _ '1' rfl (by decide)) (by decide)).2.2 (by decide)

/-- C7: every string in the keyword and builtin-type table lexes alone to
exactly its table token and then exhaustion, never a symbol; and every
string matching the identifier grammar that is not in the table lexes
alone to a single symbol token carrying exactly that text, then
exhaustion. -/
theorem C7_keywords_and_symbols :
    (∀ p ∈ get_identifiers_map,
      run (Lexer.new p.1.data) 2 = [.token p.2, .failure "No more tokens"]) ∧
    (∀ s : List Char, s ≠ [] →
      (∀ c, s.head? = some c → (c.isAlpha || c == '_') = true) →
      (∀ c ∈ s, (c.isAlphanum || c == '_') = true) →
      identifiers_lookup (String.mk s) = none →
      run (Lexer.new s) 2 =
        [.token (.Symbol (String.mk s)), .failure "No more tokens"]) := by
  constructor
  · intro p hp
    fin_cases hp <;>
      · rw [lex_ident_standalone _ (by decide)
          (by
            intro c hc
            have hm := mem_of_head_opt _ c hc
            clear hc
            revert c
            decide)
          (by decide)]
        rfl
  · intro s hne hhead hall hlk
    rw [lex_ident_standalone s hne hhead hall, hlk]

/-- C7 witness: the table conjunct applied to the keyword if and the
symbol conjunct applied to the identifier abc. -/
theorem C7_witness :
    run (Lexer.new "if".data) 2 = [.token .If, .failure "No more tokens"] ∧
    run (Lexer.new "abc".data) 2 =
      [.token (.Symbol "abc"), .failure "No more tokens"] := by
  constructor
  · exact C7_keywords_and_symbols.1 ("if", .If) (by simp [get_identifiers_map])
  · exact C7_keywords_and_symbols.2 "abc".data (by decide)
      (head_opt_intro _ 'a' rfl (by decide)) (by decide) (by rfl)

set_option maxHeartbeats 1000000 in
/-- C8: a byte-string literal whose body contains no double quote lexes as
exactly one byte-sequence token whose payload is the raw UTF-8 bytes of
the enclosed source text - prefix letter and both quotes excluded,
backslash escape sequences preserved verbatim - followed by exhaustion. -/
theorem C8_bytes_literal (body : List Char) (hq : '"' ∉ body) :
    run (Lexer.new ('b' :: '"' :: (body ++ ['"']))) 2 =
      [.token (.BytesValue (as_bytes body)), .failure "No more tokens"] := by
  obtain ⟨_, hch, hld, _, _⟩ := new_start ('b' :: '"' :: (body ++ ['"']))
  set m0 := advance_if_processed (Lexer.new ('b' :: '"' :: (body ++ ['"'])))
    with hm0
  obtain ⟨hc, hin⟩ := cur_of_chars_cons _ 'b' ('"' :: (body ++ ['"'])) hld hch
  have hskip := skip_nonws _ 'b' hc (by decide)
  have hnt := next_token_at (Lexer.new ('b' :: '"' :: (body ++ ['"']))) _ 'b'
    hskip hc
  rw [if_pos (by decide)] at hnt
  have hloop := ident_loop_run ['b'] m0 ('"' :: (body ++ ['"'])) []
    (by decide) hld (by rw [hch]; rfl)
    (by intro c hcq; simp at hcq; subst hcq; decide)
  simp only [List.nil_append, List.length_singleton] at hloop
  obtain ⟨hch1, hld1⟩ := consumeN_chars 1 m0 hld
  rw [hch] at hch1
  simp only [List.drop_succ_cons, List.drop_zero] at hch1
  obtain ⟨hc1, hin1⟩ := cur_of_chars_cons _ '"' (body ++ ['"']) hld1 hch1
  have hprev1 : (consumeN m0 1).previous_chr = some 'b' := by
    rw [consumeN_prev 1 (by omega) _ hld, hch]
    rfl
  have hlk : identifiers_lookup (String.mk ['b']) = none := by rfl
  have hld3 : Loaded (next_char (Lexer.mk (consumeN m0 1).input
      (some '"') (some 'b') (consumeN m0 1).row (consumeN m0 1).column
      true)) := loaded_next_char _
  have hch3 : chars (next_char (Lexer.mk (consumeN m0 1).input
      (some '"') (some 'b') (consumeN m0 1).row (consumeN m0 1).column
      true)) = body ++ ['"'] := by
    rw [chars_next_char]
    exact hin1
  have hqloop := quoted_loop_run body
    (next_char (Lexer.mk (consumeN m0 1).input (some '"') (some 'b')
      (consumeN m0 1).row (consumeN m0 1).column true)) ['"'] []
    (fun c hcm heq => hq (heq ▸ hcm)) hld3 (by rw [hch3])
    (by intro c h; exact (Option.some.inj h).symm)
  simp only [List.nil_append] at hqloop
  obtain ⟨hch4, hld4⟩ := consumeN_chars body.length _ hld3
  rw [hch3] at hch4
  simp only [List.drop_left] at hch4
  obtain ⟨hc4, hin4⟩ := cur_of_chars_cons _ '"' [] hld4 hch4
  simp only [handle_identifier, hloop, List.length_singleton, hlk, hprev1,
    hc1, hqloop, hc4, beq_self_eq_true, if_true] at hnt
  have hLFch : chars { next_char (consumeN (next_char (Lexer.mk
      (consumeN m0 1).input (some '"') (some 'b') (consumeN m0 1).row
      (consumeN m0 1).column true)) body.length) with
      current_char_processed := false } = [] := by
    rw [chars_set_flag, chars_next_char]
    exact hin4
  have hLFld : Loaded { next_char (consumeN (next_char (Lexer.mk
      (consumeN m0 1).input (some '"') (some 'b') (consumeN m0 1).row
      (consumeN m0 1).column true)) body.length) with
      current_char_processed := false } :=
    loaded_set_flag _ _ (loaded_next_char _)
  have hrest := run_one_exhausted _ hLFld hLFch
  show run (Lexer.new ('b' :: '"' :: (body ++ ['"']))) (1 + 1) = _
  rw [run_cons _ _ _ 1 hnt, hrest]

/-- C8 witness: the theorem applied to the body of the specification
example, with the payload bytes computed: the backslash escape sequences
remain verbatim source characters. -/
theorem C8_witness :
    run (Lexer.new ('b' :: '"' :: ("hello \\x01\\03 \\x44".data ++ ['"']))) 2 =
      [.token (.BytesValue [104, 101, 108, 108, 111, 32, 92, 120, 48, 49,
        92, 48, 51, 32, 92, 120, 52, 52]), .failure "No more tokens"] := by
  have h := C8_bytes_literal "hello \\x01\\03 \\x44".data (by decide)
  rw [h]
  rfl

/-- C10 witness: the invariant instantiated on the concrete run that lexes
the symbol abc. -/
theorem C10_witness :
    ("abc" : String).data ≠ [] ∧
    (∀ d, ("abc" : String).data.head? = some d →
      (d.isAlpha || d == '_') = true) ∧
    (∀ d ∈ ("abc" : String).data, (d.isAlphanum || d == '_') = true) ∧
    identifiers_lookup "abc" = none :=
  C10_symbol_invariant (Lexer.new "abc".data)
    ⟨[], none, some 'c', 0, 3, false⟩ "abc"
    (by simp [next_token, advance_if_processed, Lexer.new, next_char,
      skip_redundant_characters, skip_body, is_newline, rust_is_whitespace,
      handle_identifier, ident_loop, identifiers_lookup,
      get_identifiers_map, get_operators, get_delimiters])

end BeadLex
